import Mathlib

/-!
Verification development for the Milvus vector-database client scripts
(`src/db_insertion.py`, `src/index.py`, `src/query.py`).

The Python sources are shallowly embedded as executable Lean definitions:

* batching of the ingestion pipeline (`main` in `db_insertion.py`, lines 99-104),
* worker results and the result check (`insert_batch` lines 47-61, `main` lines 108-120),
* the batch-preparation phase of `main` (lines 78-109), which performs no
  length precondition check,
* the index lifecycle manager (`replace_index` in `index.py`, lines 23-65),
  with failure injection for each remote step and a structured log mirroring
  its `print` calls,
* the batched search and aggregation (`perform_search` in `query.py`,
  lines 26-66),
* the two connection context managers (`milvus_connection` of
  `db_insertion.py` lines 18-35, and the shared variant of `index.py`
  lines 5-21 / `query.py` lines 8-24), embedded together with the CPython
  `contextlib.contextmanager` protocol that drives them.

Remote-store behaviour (connect attempts, insert outcomes, step failures,
search hits) is supplied as explicit function parameters, so every
definition is executable on concrete inputs.
-/

/-! ### Batching (db_insertion.py `main`, lines 99-104)

Python:
```
for start_idx in range(0, total_size, batch_size):
    end_idx = min(start_idx + batch_size, total_size)
    ...
    batches.append((name, start_idx, end_idx, batch_ids, batch_embeddings))
```
The loop is modelled with structural fuel; `fuel = total` steps suffice
because each iteration advances `start` by `bs ≥ 1`.  (Python's `range`
raises for `step = 0`; the model returns `[]` there, and every theorem
about batching assumes `0 < bs`, matching the constant `batch_size = 1000`
of the source.) -/
def makeBatchesFrom (total bs : Nat) : Nat → Nat → List (Nat × Nat)
  | 0, _ => []
  | fuel + 1, start =>
    if start < total then
      (start, min (start + bs) total) :: makeBatchesFrom total bs fuel (start + bs)
    else []

/-- Batch ranges `[start, stop)` produced by the ingestion pipeline for a
dataset of `total` ids and batch size `bs`. -/
def makeBatches (total bs : Nat) : List (Nat × Nat) :=
  makeBatchesFrom total bs total 0

/-- Membership of an index in a batch range: `b.1 ≤ idx < b.2`. -/
def coversIdx (idx : Nat) (b : Nat × Nat) : Bool :=
  decide (b.1 ≤ idx ∧ idx < b.2)

/-! ### Worker result and result check (db_insertion.py, lines 47-61 and 108-120)

`insert_batch` opens its own connection, inserts the slice and returns
`(True, None)`, or catches any exception `e` and returns
`(False, f"Error inserting batch {start_idx}:{end_idx}: {str(e)}")`.
The outcome of the remote insert (including a connection failure inside the
`with` block) is supplied as `outcome : Option String`
(`none` = the insert succeeded, `some m` = an exception with message `m`). -/
def insert_batch (start stop : Nat) (outcome : Option String) : Bool × Option String :=
  match outcome with
  | none => (true, none)
  | some m =>
    (false, some ("Error inserting batch " ++ toString start ++ ":" ++ toString stop ++ ": " ++ m))

/-- Observable result of the parallel-insertion phase of `main`
(db_insertion.py, lines 108-120): the reported success count, whether the
final `raise Exception("Some batches failed to insert")` fires, the error
messages printed for the failed batches, and the batch ranges that remain
committed in the remote store (the successful inserts; the code never
deletes them). -/
structure InsertRunResult where
  success_count : Nat
  raised : Bool
  failed_errors : List (Option String)
  committed : List (Nat × Nat)
deriving Repr, DecidableEq

/-- Model of `pool.map(insert_batch, batches)` followed by the result check
of `main` (db_insertion.py, lines 108-120).  `store b` is the remote
outcome for batch `b` (`none` = success). -/
def run_insert_all (batches : List (Nat × Nat)) (store : Nat × Nat → Option String) :
    InsertRunResult :=
  let results := batches.map (fun b => (b, insert_batch b.1 b.2 (store b)))
  { success_count := results.countP (fun r => r.2.1)
    raised := decide (results.countP (fun r => r.2.1) < results.length)
    failed_errors := (results.filter (fun r => !r.2.1)).map (fun r => r.2.2)
    committed := (results.filter (fun r => r.2.1)).map (fun r => r.1) }

/-- Batch-preparation phase of `main` (db_insertion.py, lines 94-109).
Python slices clamp: `ids[s:e]` is `(ids.drop s).take (e - s)`.  Note the
source computes `total_size = len(chunk_id)` and performs no check that
`len(corpus_embedding) = len(chunk_id)`; the embedding slice of a batch may
therefore be shorter than its id slice.  The returned list is exactly what
is dispatched to `pool.map`. -/
def prepare_batches {α β : Type} (ids : List α) (embs : List β) (bs : Nat) :
    List (Nat × Nat × List α × List β) :=
  (makeBatches ids.length bs).map
    (fun b => (b.1, b.2, (ids.drop b.1).take (b.2 - b.1), (embs.drop b.1).take (b.2 - b.1)))

/-! ### Index lifecycle manager (index.py `replace_index`, lines 23-65) -/

/-- Index parameters: `{"index_type": ..., "metric_type": ..., "params": {"nlist": ...}}`. -/
structure IndexSpec where
  index_type : String
  metric_type : String
  nlist : Nat
deriving Repr, DecidableEq

/-- Default parameters substituted when the caller passes `index_params=None`
(index.py, lines 27-32). -/
def default_index_params : IndexSpec :=
  ⟨"IVF_FLAT", "COSINE", 768⟩

/-- Remote collection state observed by `replace_index`: whether it is
loaded into memory, and its index (at most one) with its parameters. -/
structure CollectionState where
  loaded : Bool
  index : Option IndexSpec
deriving Repr, DecidableEq

/-- Lifecycle steps of `replace_index`, in execution order. -/
inductive RStep where
  | release
  | dropIndex
  | createIndex
  | load
deriving Repr, DecidableEq

/-- Position of a step in the `release → dropIndex → createIndex → load` order. -/
def stepIdx : RStep → Nat
  | .release => 0
  | .dropIndex => 1
  | .createIndex => 2
  | .load => 3

/-- Structured model of the `print` calls of `replace_index`; each
constructor corresponds to one exact message of the source:
`releasing` = "Releasing collection from memory...",
`dropping` = "Dropping existing index...",
`dropped` = "Existing index dropped successfully",
`creating p` = "Creating new index with parameters: <p>",
`created` = "New index created successfully",
`loading` = "Loading collection into memory...",
`loadedOk` = "Collection loaded successfully",
`errorLine m` = "Error during index replacement: <m>". -/
inductive LogLine where
  | releasing
  | dropping
  | dropped
  | creating (p : IndexSpec)
  | created
  | loading
  | loadedOk
  | errorLine (msg : String)
deriving Repr, DecidableEq

/-- Failure injection for the four remote calls of `replace_index`:
`none` = the call succeeds, `some m` = it raises an exception with
message `m`.  The state reads `is_loaded()` / `has_index()` are modelled
as pure reads of `CollectionState`. -/
structure StepEnv where
  releaseRes : Option String
  dropRes : Option String
  createRes : Option String
  loadRes : Option String
deriving Repr, DecidableEq

/-- Environment in which every lifecycle step succeeds. -/
def allStepsOk : StepEnv := ⟨none, none, none, none⟩

/-- Exception message carried by the failure of a given step. -/
def stepMsg (env : StepEnv) : RStep → Option String
  | .release => env.releaseRes
  | .dropIndex => env.dropRes
  | .createIndex => env.createRes
  | .load => env.loadRes

/-- Effect of a successfully executed lifecycle step on the collection
state (`p` is the spec passed to `create_index`). -/
def applyStep (p : IndexSpec) (s : CollectionState) : RStep → CollectionState
  | .release => { s with loaded := false }
  | .dropIndex => { s with index := none }
  | .createIndex => { s with index := some p }
  | .load => { s with loaded := true }

/-- Observable result of one `replace_index` call: the returned Bool, the
full print log, the final collection state, the successfully executed
steps in order, and (as a trace observable) the step whose remote call
raised, if any. -/
structure ReplaceResult where
  success : Bool
  log : List LogLine
  state : CollectionState
  executed : List RStep
  failedStep : Option RStep
deriving Repr, DecidableEq

/-- Step 4 of `replace_index` (index.py, lines 56-59): `collection.load()`. -/
def replaceFromLoad (env : StepEnv) (s : CollectionState)
    (log : List LogLine) (ex : List RStep) : ReplaceResult :=
  match env.loadRes with
  | some m => ⟨false, log ++ [.loading, .errorLine m], s, ex, some .load⟩
  | none => ⟨true, log ++ [.loading, .loadedOk], { s with loaded := true }, ex ++ [.load], none⟩

/-- Step 3 of `replace_index` (index.py, lines 48-54): `collection.create_index(...)`. -/
def replaceFromCreate (env : StepEnv) (p : IndexSpec) (s : CollectionState)
    (log : List LogLine) (ex : List RStep) : ReplaceResult :=
  match env.createRes with
  | some m => ⟨false, log ++ [.creating p, .errorLine m], s, ex, some .createIndex⟩
  | none =>
    replaceFromLoad env { s with index := some p }
      (log ++ [.creating p, .created]) (ex ++ [.createIndex])

/-- Step 2 of `replace_index` (index.py, lines 42-46): drop the index if one exists. -/
def replaceFromDrop (env : StepEnv) (p : IndexSpec) (s : CollectionState)
    (log : List LogLine) (ex : List RStep) : ReplaceResult :=
  if s.index.isSome then
    match env.dropRes with
    | some m => ⟨false, log ++ [.dropping, .errorLine m], s, ex, some .dropIndex⟩
    | none =>
      replaceFromCreate env p { s with index := none }
        (log ++ [.dropping, .dropped]) (ex ++ [.dropIndex])
  else replaceFromCreate env p s log ex

/-- Model of `replace_index(collection_name, index_params)` (index.py,
lines 23-65): substitute the default spec when `index_params is None`,
then release if loaded, drop if an index exists, create, load; the first
raising step aborts the rest, prints
"Error during index replacement: <msg>" and returns `False`. -/
def replace_index (env : StepEnv) (params_opt : Option IndexSpec) (s : CollectionState) :
    ReplaceResult :=
  let p := params_opt.getD default_index_params
  if s.loaded then
    match env.releaseRes with
    | some m => ⟨false, [.releasing, .errorLine m], s, [], some .release⟩
    | none => replaceFromDrop env p { s with loaded := false } [.releasing] [.release]
  else replaceFromDrop env p s [] []

/-- Step announced by a log line (the message each step prints before its
remote call), if it is such an announce line. -/
def announceStep : LogLine → Option RStep
  | .releasing => some .release
  | .dropping => some .dropIndex
  | .creating _ => some .createIndex
  | .loading => some .load
  | _ => none

/-- Last step announced in a print log.  For a failed `replace_index` run
this is the step whose remote call raised, so the operator-visible log
identifies the failing step. -/
def lastAnnounce (log : List LogLine) : Option RStep :=
  log.foldl (fun acc line => match announceStep line with | some st => some st | none => acc) none

/-! ### Batched search and aggregation (query.py `perform_search`, lines 26-66) -/

/-- One element of the `qid_cid` result list (query.py, lines 59-63):
`{"qid": i + j, "cid": corpus_cid, "cosine": [dist for _, dist in list_index]}`.
`cid` is a set (`list(set(...))` in the source: deduplicated, order not
significant), `cosine` keeps the raw per-hit order.  Scores are kept
abstract in `α` (the source stores floats; nothing computes with them). -/
structure SearchRec (α : Type) where
  qid : Nat
  cid : Finset Int
  cosine : List α
deriving DecidableEq

/-- Parent-context ids of one chunk id: `corpus_df[corpus_df["chunk_id"] == c]["cid"]`
as a deduplicated set.  The mapping table is the rows `(chunk_id, cid)` of
`corpus_df`. -/
def lookup_cids (table : List (Int × Int)) (c : Int) : Finset Int :=
  ((table.filter (fun r => decide (r.1 = c))).map Prod.snd).toFinset

/-- Aggregated parent ids of a hit list (query.py, lines 56-57):
`list(set(corpus_df[corpus_df["chunk_id"].isin(chunk_ids)]["cid"].tolist()))`,
where `chunk_ids = [id for id, _ in list_index]`. -/
def hit_cids {α : Type} (table : List (Int × Int)) (hits : List (Int × α)) : Finset Int :=
  ((table.filter (fun r => decide (r.1 ∈ hits.map Prod.fst))).map Prod.snd).toFinset

/-- The result record built for the query with global index `k` from its
raw hit list (query.py, lines 51-64). -/
def searchRecOf {α : Type} (table : List (Int × Int)) (k : Nat) (hits : List (Int × α)) :
    SearchRec α :=
  ⟨k, hit_cids table hits, hits.map Prod.snd⟩

/-- Model of the batching loop of `perform_search` (query.py, lines 40-64):
`for i in range(0, len(question_embedding), batch_size)` with
`results = collection.search(batch)` returning one hit list per batch row
(modelled by `store` applied to each query vector) and
`for j, result in enumerate(results)` appending the record with
`qid = i + j`.  Structural fuel as in `makeBatchesFrom`. -/
def performSearchFrom {Q α : Type} (store : Q → List (Int × α)) (table : List (Int × Int))
    (queries : List Q) (bs : Nat) : Nat → Nat → List (SearchRec α)
  | 0, _ => []
  | fuel + 1, i =>
    if i < queries.length then
      (((queries.drop i).take bs).map store).enum.map (fun jr => searchRecOf table (i + jr.1) jr.2)
        ++ performSearchFrom store table queries bs fuel (i + bs)
    else []

/-- Model of `perform_search(collection, question_embedding, corpus_df, top_k, batch_size)`. -/
def perform_search {Q α : Type} (store : Q → List (Int × α)) (table : List (Int × Int))
    (queries : List Q) (bs : Nat) : List (SearchRec α) :=
  performSearchFrom store table queries bs queries.length 0

/-! ### Connection context managers

Both `milvus_connection` definitions are generators decorated with
`@contextmanager`; `with milvus_connection(...) : BODY` therefore runs under
the CPython `contextlib` protocol:

* `__enter__` runs the generator to its first `yield` (raising
  `RuntimeError("generator didn't yield")` if it returns first);
* the body runs exactly once;
* on normal body exit, `__exit__` resumes the generator: a second `yield`
  raises `RuntimeError("generator didn't stop")`, a return is a clean exit,
  an exception propagates;
* on a body exception, `__exit__` throws it into the generator at the
  `yield`: if the generator yields again,
  `RuntimeError("generator didn't stop after throw()")`; if it returns, the
  exception is suppressed; if it raises, that exception replaces the
  body's.

The remote store is modelled by `connectRes : Nat → Option String` (the
outcome of the attempt-`k` `connections.connect` call: `none` = success,
`some m` = exception `m`) and the caller's body by `bodyRes : Option String`
(`none` = returns normally, `some m` = raises `m`).  `disconnect` is
modelled as always closing the handle with any failure swallowed
(the bare `except: pass` of the source), so it never contributes to the
outcome.

The `milvus_connection` of db_insertion.py (lines 18-35) has `yield; break`
inside the loop, but its `finally:` block (line 31) is written at the
indentation of the `for` statement — which Python's grammar rejects (a
`for` statement has no `finally` clause): the module as committed is a
SyntaxError.  The model below embeds the minimal repair consistent with
that indentation, a `try:` wrapping the whole retry loop with the
`finally: disconnect` running once when the generator exits.

The `milvus_connection` shared by index.py (lines 5-21) and query.py
(lines 8-24) is syntactically valid: `try/except/finally` all inside the
loop, and no `break` after `yield`, so after a successful body the
generator loops and tries to connect (and yield) again. -/

/-- Outcome of executing `with milvus_connection(...): body`.
`connectFailure n m` is the source's
`Exception(f"Failed to connect after {n} attempts: {m}")`;
`bodyError m` stands for the body's own exception propagating unchanged
(no execution path of either variant produces it — the `except` clause
catches and replaces it); the `didnt*` constructors are the three
`RuntimeError`s of the `contextlib` protocol. -/
inductive ConnOutcome where
  | ok
  | connectFailure (attempts : Nat) (cause : String)
  | bodyError (msg : String)
  | didntStop
  | didntStopAfterThrow
  | didntYield
deriving Repr, DecidableEq

/-- Event counts and final handle state of one `with milvus_connection`
execution.  `openHandle` is true while a successful `connect` has not been
followed by a `disconnect`. -/
structure ConnState where
  connects : Nat
  bodyRuns : Nat
  sleeps : Nat
  disconnects : Nat
  openHandle : Bool
deriving Repr, DecidableEq

/-- Trace and outcome of one `with milvus_connection` execution. -/
structure ConnResult where
  state : ConnState
  outcome : ConnOutcome
deriving Repr, DecidableEq

/-- Initial trace state: nothing has happened, no handle open. -/
def connInit : ConnState := ⟨0, 0, 0, 0, false⟩

/-- A `connections.connect` call that succeeds. -/
def stepConnectOk (s : ConnState) : ConnState :=
  { s with connects := s.connects + 1, openHandle := true }

/-- A `connections.connect` call that raises. -/
def stepConnectFail (s : ConnState) : ConnState :=
  { s with connects := s.connects + 1 }

/-- A `time.sleep(retry_delay)` call. -/
def stepSleep (s : ConnState) : ConnState :=
  { s with sleeps := s.sleeps + 1 }

/-- A `connections.disconnect` call; its own failures are swallowed by the
bare `except: pass`, so it always just closes the handle. -/
def stepDisconnect (s : ConnState) : ConnState :=
  { s with disconnects := s.disconnects + 1, openHandle := false }

/-- One execution of the caller's body (the code inside the `with` block). -/
def stepBody (s : ConnState) : ConnState :=
  { s with bodyRuns := s.bodyRuns + 1 }

/-- db_insertion.py variant, resumed after the body's exception was thrown
into the generator and caught by the `except` on a non-last attempt: the
loop keeps retrying `connect`; a successful `connect` reaches `yield`
again, so `__exit__` raises
`RuntimeError("generator didn't stop after throw()")` (the generator is
left suspended, its pending `finally` unrun until garbage collection —
the model stops at the `with` statement's exit); a failure on the last
attempt raises the generic message through the outer `finally`.  If the
loop were to exhaust (unreachable from `milvus_connection_db`: recovery
always starts before the last attempt), the generator would return and
`StopIteration` after `throw()` would suppress the body's exception. -/
def dbConnRecoverLoop (retries : Nat) (connectRes : Nat → Option String) :
    List Nat → ConnState → ConnResult
  | [], s => ⟨stepDisconnect s, .ok⟩
  | a :: rest, s =>
    match connectRes a with
    | some m =>
      let s1 := stepConnectFail s
      if a = retries - 1 then ⟨stepDisconnect s1, .connectFailure retries m⟩
      else dbConnRecoverLoop retries connectRes rest (stepSleep s1)
    | none => ⟨stepConnectOk s, .didntStopAfterThrow⟩

/-- db_insertion.py variant (lines 18-35, with the misindented `finally`
read as a `try/finally` around the loop), driven from `__enter__`: walk the
attempt list; a failed attempt sleeps and retries, or on the last attempt
raises the generic failure through the `finally`; a successful attempt
yields, the body runs once, and on normal return `break` exits the loop
into `finally: disconnect` for a clean exit; on a body exception the
`except` catches it (becoming the generic failure on the last attempt,
otherwise entering the recovery loop). -/
def dbConnEnterLoop (retries : Nat) (connectRes : Nat → Option String) (bodyRes : Option String) :
    List Nat → ConnState → ConnResult
  | [], s => ⟨stepDisconnect s, .didntYield⟩
  | a :: rest, s =>
    match connectRes a with
    | some m =>
      let s1 := stepConnectFail s
      if a = retries - 1 then ⟨stepDisconnect s1, .connectFailure retries m⟩
      else dbConnEnterLoop retries connectRes bodyRes rest (stepSleep s1)
    | none =>
      let s1 := stepBody (stepConnectOk s)
      match bodyRes with
      | none => ⟨stepDisconnect s1, .ok⟩
      | some bm =>
        if a = retries - 1 then ⟨stepDisconnect s1, .connectFailure retries bm⟩
        else dbConnRecoverLoop retries connectRes rest (stepSleep s1)

/-- Full execution of `with milvus_connection(alias, ...): body` for the
db_insertion.py variant; `for attempt in range(retries)` supplies the
attempt list. -/
def milvus_connection_db (retries : Nat) (connectRes : Nat → Option String)
    (bodyRes : Option String) : ConnResult :=
  dbConnEnterLoop retries connectRes bodyRes (List.range retries) connInit

/-- index.py / query.py variant, resumed after the body returned normally:
the attempt's `finally` has disconnected and the loop continues; a further
successful `connect` reaches `yield` again and `__exit__` raises
`RuntimeError("generator didn't stop")` (generator abandoned with the
handle open); a failure on the last attempt turns a successful body into
the generic connect failure; exhausting the loop is the clean exit. -/
def qConnExitLoop (retries : Nat) (connectRes : Nat → Option String) :
    List Nat → ConnState → ConnResult
  | [], s => ⟨s, .ok⟩
  | a :: rest, s =>
    match connectRes a with
    | some m =>
      let s1 := stepConnectFail s
      if a = retries - 1 then ⟨stepDisconnect s1, .connectFailure retries m⟩
      else qConnExitLoop retries connectRes rest (stepDisconnect (stepSleep s1))
    | none => ⟨stepConnectOk s, .didntStop⟩

/-- index.py / query.py variant, resumed after the body's exception was
thrown into the generator and caught on a non-last attempt (each iteration
ends in `finally: disconnect`).  A later successful `connect` yields again:
`RuntimeError("generator didn't stop after throw()")`.  Exhausting the
loop (unreachable from `milvus_connection_query`) would suppress the
body's exception. -/
def qConnRecoverLoop (retries : Nat) (connectRes : Nat → Option String) :
    List Nat → ConnState → ConnResult
  | [], s => ⟨s, .ok⟩
  | a :: rest, s =>
    match connectRes a with
    | some m =>
      let s1 := stepConnectFail s
      if a = retries - 1 then ⟨stepDisconnect s1, .connectFailure retries m⟩
      else qConnRecoverLoop retries connectRes rest (stepDisconnect (stepSleep s1))
    | none => ⟨stepConnectOk s, .didntStopAfterThrow⟩

/-- index.py (lines 5-21) / query.py (lines 8-24) variant, driven from
`__enter__`: `try/except/finally` all inside the loop and no `break` after
`yield`.  A successful attempt yields (body runs once); resuming after a
normal body return falls into `finally: disconnect` and continues the loop
(`qConnExitLoop`); a body exception is caught by the `except`
(`qConnRecoverLoop` on non-last attempts, the generic failure on the
last). -/
def qConnEnterLoop (retries : Nat) (connectRes : Nat → Option String) (bodyRes : Option String) :
    List Nat → ConnState → ConnResult
  | [], s => ⟨s, .didntYield⟩
  | a :: rest, s =>
    match connectRes a with
    | some m =>
      let s1 := stepConnectFail s
      if a = retries - 1 then ⟨stepDisconnect s1, .connectFailure retries m⟩
      else qConnEnterLoop retries connectRes bodyRes rest (stepDisconnect (stepSleep s1))
    | none =>
      let s1 := stepBody (stepConnectOk s)
      match bodyRes with
      | none => qConnExitLoop retries connectRes rest (stepDisconnect s1)
      | some bm =>
        if a = retries - 1 then ⟨stepDisconnect s1, .connectFailure retries bm⟩
        else qConnRecoverLoop retries connectRes rest (stepDisconnect (stepSleep s1))

/-- Full execution of `with milvus_connection(...): body` for the
index.py / query.py variant. -/
def milvus_connection_query (retries : Nat) (connectRes : Nat → Option String)
    (bodyRes : Option String) : ConnResult :=
  qConnEnterLoop retries connectRes bodyRes (List.range retries) connInit

/-! ## Lemmas and theorems -/

/-! ### Batch partition (C2) -/

lemma makeBatchesFrom_bounds {total bs : Nat} (hbs : 0 < bs) :
    ∀ fuel start b, b ∈ makeBatchesFrom total bs fuel start →
      start ≤ b.1 ∧ b.1 < b.2 ∧ b.2 ≤ total := by
  intro fuel
  induction fuel with
  | zero => intro start b hb; simp [makeBatchesFrom] at hb
  | succ n ih =>
    intro start b hb
    by_cases h : start < total
    · simp only [makeBatchesFrom, if_pos h, List.mem_cons] at hb
      rcases hb with hb | hb
      · subst hb; refine ⟨Nat.le_refl _, ?_, ?_⟩ <;> omega
      · have := ih (start + bs) b hb; omega
    · simp [makeBatchesFrom, h] at hb

lemma makeBatchesFrom_countP_cover {total bs : Nat} (hbs : 0 < bs) (idx : Nat) :
    ∀ fuel start, total ≤ start + fuel → start ≤ idx → idx < total →
      (makeBatchesFrom total bs fuel start).countP (coversIdx idx) = 1 := by
  intro fuel
  induction fuel with
  | zero => intro start h1 h2 h3; omega
  | succ n ih =>
    intro start h1 h2 h3
    have hst : start < total := Nat.lt_of_le_of_lt h2 h3
    simp only [makeBatchesFrom, if_pos hst, List.countP_cons]
    by_cases hc : idx < start + bs
    · have hcov : coversIdx idx (start, min (start + bs) total) = true := by
        simp [coversIdx]; omega
      have htail : (makeBatchesFrom total bs n (start + bs)).countP (coversIdx idx) = 0 := by
        apply List.countP_eq_zero.mpr
        intro b hb
        have hbd := makeBatchesFrom_bounds hbs n (start + bs) b hb
        simp [coversIdx]; omega
      simp [hcov, htail]
    · have hcov : coversIdx idx (start, min (start + bs) total) = false := by
        simp [coversIdx]; omega
      have htail := ih (start + bs) (by omega) (by omega) h3
      simp [hcov, htail]

lemma makeBatchesFrom_countP_outside {total bs : Nat} (hbs : 0 < bs) (idx : Nat)
    (hidx : total ≤ idx) (fuel start : Nat) :
    (makeBatchesFrom total bs fuel start).countP (coversIdx idx) = 0 := by
  apply List.countP_eq_zero.mpr
  intro b hb
  have hbd := makeBatchesFrom_bounds hbs fuel start b hb
  simp [coversIdx]; omega

lemma makeBatchesFrom_getElem {total bs : Nat} :
    ∀ fuel start i, i < (makeBatchesFrom total bs fuel start).length →
      (makeBatchesFrom total bs fuel start)[i]? =
        some (start + i * bs, min (start + (i + 1) * bs) total) := by
  intro fuel
  induction fuel with
  | zero => intro start i h; simp [makeBatchesFrom] at h
  | succ n ih =>
    intro start i h
    by_cases hst : start < total
    · match i with
      | 0 =>
        simp [makeBatchesFrom, hst]
      | i + 1 =>
        have h' : i < (makeBatchesFrom total bs n (start + bs)).length := by
          simp only [makeBatchesFrom, if_pos hst, List.length_cons] at h
          omega
        rw [show makeBatchesFrom total bs (n + 1) start
              = (start, min (start + bs) total) :: makeBatchesFrom total bs n (start + bs) by
            simp [makeBatchesFrom, hst]]
        rw [List.getElem?_cons_succ, ih (start + bs) i h']
        have e1 : start + bs + i * bs = start + (i + 1) * bs := by ring
        have e2 : start + bs + (i + 1) * bs = start + (i + 1 + 1) * bs := by ring
        rw [e1, e2]
    · exfalso
      simp [makeBatchesFrom, hst] at h

/-- Claim C2: for every dataset size `N` and positive `batchSize`, the
ingestion pipeline partitions `[0, N)` into consecutive ranges: the `i`-th
batch is `[i*bs, min((i+1)*bs, N))` (size `bs` except a possibly shorter
last range), every index below `N` is covered by exactly one batch and no
batch covers an index `≥ N` (so the ranges are pairwise disjoint with
union exactly `[0, N)`), and concretely `N = 4`, `bs = 2` yields exactly
`[0,2)` and `[2,4)`. -/
theorem claim_C2_batch_partition (N bs : Nat) (hbs : 0 < bs) :
    (∀ i, i < (makeBatches N bs).length →
        (makeBatches N bs)[i]? = some (i * bs, min ((i + 1) * bs) N)) ∧
    (∀ idx : Nat,
        (makeBatches N bs).countP (coversIdx idx) = if idx < N then 1 else 0) ∧
    makeBatches 4 2 = [(0, 2), (2, 4)] := by
  refine ⟨?_, ?_, ?_⟩
  · intro i h
    have := @makeBatchesFrom_getElem N bs N 0 i h
    simpa [makeBatches] using this
  · intro idx
    by_cases hi : idx < N
    · rw [if_pos hi]
      exact makeBatchesFrom_countP_cover hbs idx N 0 (by omega) (Nat.zero_le _) hi
    · rw [if_neg hi]
      exact makeBatchesFrom_countP_outside hbs idx (by omega) N 0
  · rfl

/-- Witness for C2 at `N = 4`, `bs = 2`. -/
theorem claim_C2_witness : 0 < 2 ∧ makeBatches 4 2 = [(0, 2), (2, 4)] :=
  ⟨by decide, (claim_C2_batch_partition 4 2 (by decide)).2.2⟩

/-! ### Insertion result accounting (C1) -/

lemma run_insert_all_countP (batches : List (Nat × Nat)) (store : Nat × Nat → Option String) :
    (batches.map (fun b => (b, insert_batch b.1 b.2 (store b)))).countP (fun r => r.2.1)
      = batches.countP (fun b => (store b).isNone) := by
  rw [List.countP_map]
  apply List.countP_congr
  intro b hb
  cases h : store b <;> simp [insert_batch, h, Function.comp]

/-- Claim C1: after all workers complete, the reported `success_count` is
the number of batches whose worker reported success; the final
`raise Exception("Some batches failed to insert")` fires if and only if at
least one batch failed; the printed failure report enumerates exactly the
failed ranges, each with the worker's message naming its range; and the
committed ranges (successful inserts remaining in the store) are exactly
the successful batches, also on partial failure — nothing is rolled
back. -/
theorem claim_C1_insert_accounting (batches : List (Nat × Nat)) (store : Nat × Nat → Option String) :
    (run_insert_all batches store).success_count
        = batches.countP (fun b => (store b).isNone) ∧
    ((run_insert_all batches store).raised = true ↔ ∃ b ∈ batches, store b ≠ none) ∧
    (run_insert_all batches store).failed_errors
        = (batches.filter (fun b => (store b).isSome)).map
            (fun b => some ("Error inserting batch " ++ toString b.1 ++ ":" ++ toString b.2
              ++ ": " ++ ((store b).getD ""))) ∧
    (run_insert_all batches store).committed = batches.filter (fun b => (store b).isNone) := by
  refine ⟨?_, ?_, ?_, ?_⟩
  · simp only [run_insert_all]
    exact run_insert_all_countP batches store
  · simp only [run_insert_all, decide_eq_true_eq, List.length_map]
    rw [run_insert_all_countP batches store]
    constructor
    · intro h
      by_contra hno
      push_neg at hno
      have hall : batches.countP (fun b => (store b).isNone) = batches.length :=
        List.countP_eq_length.mpr (fun b hb => by simp [hno b hb])
      omega
    · rintro ⟨b, hb, hne⟩
      have hne' : batches.countP (fun b => (store b).isNone) ≠ batches.length := by
        intro heq
        have := List.countP_eq_length.mp heq b hb
        simp [Option.isNone_iff_eq_none] at this
        exact hne this
      have hle : batches.countP (fun b => (store b).isNone) ≤ batches.length :=
        List.countP_le_length _
      omega
  · simp only [run_insert_all, List.filter_map, List.map_map]
    have hpred : ∀ b ∈ batches,
        ((fun r : (Nat × Nat) × Bool × Option String => !r.2.1) ∘
          (fun b => (b, insert_batch b.1 b.2 (store b)))) b
          = (fun b => (store b).isSome) b := by
      intro b hb
      cases h : store b <;> simp [insert_batch, h, Function.comp]
    rw [List.filter_congr hpred]
    apply List.map_congr_left
    intro b hb
    have hbs := List.mem_filter.mp hb
    cases h : store b with
    | none => simp [h] at hbs
    | some m => simp [insert_batch, h, Function.comp]
  · simp only [run_insert_all, List.filter_map, List.map_map]
    have hpred : ∀ b ∈ batches,
        ((fun r : (Nat × Nat) × Bool × Option String => r.2.1) ∘
          (fun b => (b, insert_batch b.1 b.2 (store b)))) b
          = (fun b => (store b).isNone) b := by
      intro b hb
      cases h : store b <;> simp [insert_batch, h, Function.comp]
    rw [List.filter_congr hpred]
    have hid : List.map ((fun r : (Nat × Nat) × Bool × Option String => r.1) ∘
          fun b => (b, insert_batch b.1 b.2 (store b)))
          (List.filter (fun b => (store b).isNone) batches)
        = List.map id (List.filter (fun b => (store b).isNone) batches) :=
      List.map_congr_left (fun b _ => rfl)
    rw [hid, List.map_id]

/-! ### Missing length precondition (C8) -/

lemma makeBatches_ne_nil {total bs : Nat} (h : 0 < total) : makeBatches total bs ≠ [] := by
  unfold makeBatches
  cases total with
  | zero => omega
  | succ k => simp [makeBatchesFrom, h]

/-- Counterexample for C8 as stated: with `ids = [1, 2]` and a single
vector row, the lengths differ, yet the pipeline raises no precondition
error before dispatch — it prepares and dispatches one batch (whose vector
slice is already short). -/
theorem claim_C8_counterexample :
    ([1, 2] : List Nat).length ≠ ([[5]] : List (List Nat)).length ∧
    prepare_batches ([1, 2] : List Nat) ([[5]] : List (List Nat)) 2 = [(0, 2, [1, 2], [[5]])] ∧
    prepare_batches ([1, 2] : List Nat) ([[5]] : List (List Nat)) 2 ≠ [] := by
  decide

/-- Claim C8 as amended: `main` performs no length precondition check.
With `len(vectors) < len(ids)` the pipeline still partitions by
`len(ids)` and dispatches every batch (the batch list is nonempty, every
batch's id slice has the full range size), and the mismatch reaches the
workers: some dispatched batch has strictly fewer vectors than ids.  No
`PreconditionError` exists on this path. -/
theorem claim_C8_amended {α β : Type} (ids : List α) (embs : List β) (bs : Nat)
    (hbs : 0 < bs) (hlen : embs.length < ids.length) :
    prepare_batches ids embs bs ≠ [] ∧
    (∀ b ∈ prepare_batches ids embs bs, b.2.2.1.length = b.2.1 - b.1) ∧
    ∃ b ∈ prepare_batches ids embs bs, b.2.2.2.length < b.2.2.1.length := by
  refine ⟨?_, ?_, ?_⟩
  · have hN : 0 < ids.length := by omega
    simp only [prepare_batches, ne_eq, List.map_eq_nil_iff]
    exact makeBatches_ne_nil hN
  · intro b hb
    simp only [prepare_batches, List.mem_map] at hb
    obtain ⟨b0, hb0, rfl⟩ := hb
    have hbd := makeBatchesFrom_bounds hbs ids.length 0 b0 hb0
    simp only [List.length_take, List.length_drop]
    omega
  · have hcov := @makeBatchesFrom_countP_cover ids.length bs hbs embs.length
      ids.length 0 (by omega) (Nat.zero_le _) hlen
    have hpos : 0 < (makeBatches ids.length bs).countP (coversIdx embs.length) := by
      unfold makeBatches
      omega
    obtain ⟨b0, hb0, hcb⟩ := List.countP_pos_iff.mp hpos
    have hbd := makeBatchesFrom_bounds hbs ids.length 0 b0 hb0
    simp only [coversIdx, decide_eq_true_eq] at hcb
    refine ⟨_, List.mem_map_of_mem _ hb0, ?_⟩
    simp only [List.length_take, List.length_drop]
    omega

/-- Witness for the amended C8 at `ids = [1,2,3]`, one vector row, `bs = 2`. -/
theorem claim_C8_witness :
    ([[9]] : List (List Nat)).length < ([1, 2, 3] : List Nat).length ∧
    prepare_batches ([1, 2, 3] : List Nat) ([[9]] : List (List Nat)) 2 ≠ [] :=
  ⟨by decide,
    (claim_C8_amended ([1, 2, 3] : List Nat) ([[9]] : List (List Nat)) 2
      (by decide) (by decide)).1⟩

/-! ### Index replacement idempotence (C5) -/

/-- Claim C5: with every lifecycle step succeeding, `replace_index` leaves
the collection loaded with exactly the given index spec, reports success,
and running it twice in succession with the same spec yields the same
final state as running it once (each step is guarded by the current
collection state). -/
theorem claim_C5_replace_index_idempotent (s : CollectionState) (p : IndexSpec) :
    (replace_index allStepsOk (some p) s).state = ⟨true, some p⟩ ∧
    (replace_index allStepsOk (some p)
        ((replace_index allStepsOk (some p) s).state)).state
      = (replace_index allStepsOk (some p) s).state ∧
    (replace_index allStepsOk (some p) s).success = true := by
  obtain ⟨ld, ix⟩ := s
  cases ld <;> cases ix <;>
    simp [replace_index, replaceFromDrop, replaceFromCreate, replaceFromLoad, allStepsOk]

/-! ### Index replacement failure reporting (C9) -/

/-- Claim C9: whenever a lifecycle step of `replace_index` fails, the call
reports failure (returns `False`), the operator-visible log identifies the
failing step (it is the last step announced before the terminal error
line, which carries the underlying message), no later step is executed
(every executed step precedes the failing one), and the collection is left
in exactly the state produced by the successfully executed prefix —
surfaced, not recovered. -/
theorem claim_C9_replace_index_failure (env : StepEnv) (p : IndexSpec) (s : CollectionState)
    (st : RStep) (hfail : (replace_index env (some p) s).failedStep = some st) :
    (replace_index env (some p) s).success = false ∧
    lastAnnounce (replace_index env (some p) s).log = some st ∧
    (∃ m, stepMsg env st = some m ∧
        (replace_index env (some p) s).log.getLast? = some (.errorLine m)) ∧
    (∀ st' ∈ (replace_index env (some p) s).executed, stepIdx st' < stepIdx st) ∧
    (replace_index env (some p) s).state
      = (replace_index env (some p) s).executed.foldl (applyStep p) s := by
  obtain ⟨rr, dr, cr, lr⟩ := env
  obtain ⟨ld, ix⟩ := s
  cases ld <;> rcases ix with _ | ix0 <;> rcases rr with _ | rm <;> rcases dr with _ | dm <;>
    rcases cr with _ | cm <;> rcases lr with _ | lm <;>
    simp_all [replace_index, replaceFromDrop, replaceFromCreate, replaceFromLoad,
      lastAnnounce, announceStep, stepMsg, stepIdx, applyStep] <;>
    (try (cases hfail; simp))

/-- Witness for C9: a run whose `create_index` call fails. -/
theorem claim_C9_witness :
    (replace_index ⟨none, none, some "disk full", none⟩ (some ⟨"HNSW", "COSINE", 16⟩)
        ⟨true, some default_index_params⟩).failedStep = some RStep.createIndex ∧
    (replace_index ⟨none, none, some "disk full", none⟩ (some ⟨"HNSW", "COSINE", 16⟩)
        ⟨true, some default_index_params⟩).success = false :=
  ⟨rfl,
    (claim_C9_replace_index_failure ⟨none, none, some "disk full", none⟩ ⟨"HNSW", "COSINE", 16⟩
      ⟨true, some default_index_params⟩ RStep.createIndex rfl).1⟩

/-! ### Aggregation of hits (C6) -/

lemma hit_cids_congr {α : Type} (table : List (Int × Int)) (hits hits' : List (Int × α))
    (h : ∀ c, c ∈ hits.map Prod.fst ↔ c ∈ hits'.map Prod.fst) :
    hit_cids table hits = hit_cids table hits' := by
  unfold hit_cids
  have heq : table.filter (fun r => decide (r.1 ∈ hits.map Prod.fst))
      = table.filter (fun r => decide (r.1 ∈ hits'.map Prod.fst)) :=
    List.filter_congr (fun r _ => decide_eq_decide.mpr (h r.1))
  rw [heq]

lemma hit_cids_foldr {α : Type} (table : List (Int × Int)) (hits : List (Int × α)) :
    hit_cids table hits
      = hits.foldr (fun hit acc => lookup_cids table hit.1 ∪ acc) ∅ := by
  induction hits with
  | nil => simp [hit_cids]
  | cons hd tl ih =>
    ext x
    simp only [List.foldr_cons, Finset.mem_union]
    rw [← ih]
    simp only [hit_cids, lookup_cids, List.mem_toFinset, List.mem_map, List.mem_filter,
      decide_eq_true_eq, List.map_cons, List.mem_cons]
    aesop

/-- Claim C6: for every query's raw hit list, the parent-id set is the
deduplicated union of the per-hit `parentMapping` lookups, invariant under
any permutation of the hit list, while the similarity sequence is exactly
the per-hit scores in original hit order (neither deduplicated nor
reordered); an empty hit list yields an empty parent-id set and an empty
similarity sequence, not an error. -/
theorem claim_C6_aggregation {α : Type} (table : List (Int × Int)) (k : Nat)
    (hits hits' : List (Int × α)) (hperm : hits.Perm hits') :
    (searchRecOf table k hits).cid = (searchRecOf table k hits').cid ∧
    (searchRecOf table k hits).cosine = hits.map Prod.snd ∧
    (searchRecOf table k hits).cid
      = hits.foldr (fun hit acc => lookup_cids table hit.1 ∪ acc) ∅ ∧
    searchRecOf table k ([] : List (Int × α)) = ⟨k, ∅, []⟩ := by
  refine ⟨?_, rfl, hit_cids_foldr table hits, ?_⟩
  · exact hit_cids_congr table hits hits' (fun c => (hperm.map Prod.fst).mem_iff)
  · simp [searchRecOf, hit_cids]

/-- Witness for C6: the spec's worked example, with the first two hits
swapped. -/
theorem claim_C6_witness :
    ([((10 : Int), (9 : Nat)), (11, 8), (12, 7)] : List (Int × Nat)).Perm
        [(11, 8), (10, 9), (12, 7)] ∧
    (searchRecOf [((10 : Int), (100 : Int)), (11, 100), (12, 200)] 0
        [((10 : Int), (9 : Nat)), (11, 8), (12, 7)]).cid
      = (searchRecOf [((10 : Int), (100 : Int)), (11, 100), (12, 200)] 0
        ([(11, 8), (10, 9), (12, 7)] : List (Int × Nat))).cid :=
  ⟨by decide,
    (claim_C6_aggregation [((10 : Int), (100 : Int)), (11, 100), (12, 200)] 0
      [((10 : Int), (9 : Nat)), (11, 8), (12, 7)] [(11, 8), (10, 9), (12, 7)] (by decide)).1⟩

/-! ### Global query indices (C7) -/

lemma performSearchFrom_stop {Q α : Type} (store : Q → List (Int × α)) (table : List (Int × Int))
    (queries : List Q) (bs fuel i : Nat) (h : queries.length ≤ i) :
    performSearchFrom store table queries bs fuel i = [] := by
  cases fuel with
  | zero => rfl
  | succ n => simp [performSearchFrom, Nat.not_lt.mpr h]

lemma enumFrom_map_searchRec {Q α : Type} (store : Q → List (Int × α)) (table : List (Int × Int)) :
    ∀ (batch : List Q) (i n : Nat),
      ((batch.map store).enumFrom n).map (fun jr => searchRecOf table (i + jr.1) jr.2)
        = (batch.enumFrom (i + n)).map (fun kq => searchRecOf table kq.1 (store kq.2)) := by
  intro batch
  induction batch with
  | nil => intro i n; rfl
  | cons q t ih =>
    intro i n
    simp only [List.map_cons, List.enumFrom_cons, List.map]
    rw [ih i (n + 1)]
    rw [show i + (n + 1) = i + n + 1 by omega]

lemma performSearchFrom_eq {Q α : Type} (store : Q → List (Int × α)) (table : List (Int × Int))
    (queries : List Q) (bs : Nat) (hbs : 0 < bs) :
    ∀ fuel i, queries.length ≤ i + fuel →
      performSearchFrom store table queries bs fuel i
        = ((queries.drop i).enumFrom i).map (fun kq => searchRecOf table kq.1 (store kq.2)) := by
  intro fuel
  induction fuel with
  | zero =>
    intro i h
    have hnil : queries.drop i = [] := List.drop_eq_nil_of_le (by omega)
    simp [performSearchFrom, hnil]
  | succ n ih =>
    intro i h
    by_cases hi : i < queries.length
    · have hsplit : queries.drop i = (queries.drop i).take bs ++ queries.drop (i + bs) := by
        conv_lhs => rw [← List.take_append_drop bs (queries.drop i)]
        rw [List.drop_drop]
      simp only [performSearchFrom, if_pos hi]
      rw [ih (i + bs) (by omega)]
      conv_rhs => rw [hsplit]
      rw [List.enumFrom_append, List.map_append]
      congr 1
      · have := enumFrom_map_searchRec store table ((queries.drop i).take bs) i 0
        simpa [List.enum] using this
      · by_cases hfit : i + bs ≤ queries.length
        · have hlen : ((queries.drop i).take bs).length = bs := by
            simp only [List.length_take, List.length_drop]
            omega
          rw [hlen]
        · have hnil : queries.drop (i + bs) = [] := List.drop_eq_nil_of_le (by omega)
          rw [hnil]
          simp
    · have hnil : queries.drop i = [] := List.drop_eq_nil_of_le (by omega)
      simp [performSearchFrom, hi, hnil]

/-- Claim C7: for every query-vector sequence and positive `batchSize`,
`perform_search` returns exactly one result record per query vector, built
from that query's hits, with `qid = batchOffset + positionInBatch` (so the
`k`-th query overall gets `qid = k`), and the `qid` sequence of the output
is exactly `0, 1, ..., N-1` — ascending order. -/
theorem claim_C7_qid_assignment {Q α : Type} (store : Q → List (Int × α))
    (table : List (Int × Int)) (queries : List Q) (bs : Nat) (hbs : 0 < bs) :
    perform_search store table queries bs
        = queries.enum.map (fun kq => searchRecOf table kq.1 (store kq.2)) ∧
    (perform_search store table queries bs).map (fun r => r.qid) = List.range queries.length := by
  have h := performSearchFrom_eq store table queries bs hbs queries.length 0 (by omega)
  have h0 : perform_search store table queries bs
      = queries.enum.map (fun kq => searchRecOf table kq.1 (store kq.2)) := by
    simpa [perform_search, List.enum] using h
  refine ⟨h0, ?_⟩
  rw [h0, List.map_map]
  have hcomp : ((fun r : SearchRec α => r.qid) ∘ fun kq : Nat × Q => searchRecOf table kq.1 (store kq.2))
      = Prod.fst := by
    funext kq
    rfl
  rw [hcomp, List.enum_map_fst]

/-- Witness for C7 with three query vectors and `bs = 2`. -/
theorem claim_C7_witness :
    0 < 2 ∧
    (perform_search (fun _ : Nat => ([] : List (Int × Nat))) [] [10, 20, 30] 2).map
        (fun r => r.qid) = List.range 3 :=
  ⟨by decide,
    (claim_C7_qid_assignment (fun _ : Nat => ([] : List (Int × Nat))) [] [10, 20, 30] 2
      (by decide)).2⟩

/-! ### Connector: body executes exactly once (C3) -/

lemma qConnExitLoop_bodyRuns (retries : Nat) (cr : Nat → Option String) :
    ∀ (l : List Nat) (s : ConnState),
      (qConnExitLoop retries cr l s).state.bodyRuns = s.bodyRuns := by
  intro l
  induction l with
  | nil => intro s; rfl
  | cons a rest ih =>
    intro s
    cases hcra : cr a with
    | some m =>
      by_cases ha : a = retries - 1
      · subst ha
        simp [qConnExitLoop, hcra, stepDisconnect, stepConnectFail]
      · simp [qConnExitLoop, hcra, ha, ih, stepDisconnect, stepSleep, stepConnectFail]
    | none => simp [qConnExitLoop, hcra, stepConnectOk]

lemma qConnRecoverLoop_bodyRuns (retries : Nat) (cr : Nat → Option String) :
    ∀ (l : List Nat) (s : ConnState),
      (qConnRecoverLoop retries cr l s).state.bodyRuns = s.bodyRuns := by
  intro l
  induction l with
  | nil => intro s; rfl
  | cons a rest ih =>
    intro s
    cases hcra : cr a with
    | some m =>
      by_cases ha : a = retries - 1
      · subst ha
        simp [qConnRecoverLoop, hcra, stepDisconnect, stepConnectFail]
      · simp [qConnRecoverLoop, hcra, ha, ih, stepDisconnect, stepSleep, stepConnectFail]
    | none => simp [qConnRecoverLoop, hcra, stepConnectOk]

lemma qConnEnterLoop_bodyRuns (retries : Nat) (cr : Nat → Option String) (br : Option String)
    (k : Nat) (hks : cr k = none) :
    ∀ (n a : Nat) (s : ConnState), a + n = retries → a ≤ k → k < retries →
      (∀ j, a ≤ j → j < k → cr j ≠ none) →
      (qConnEnterLoop retries cr br (List.range' a n) s).state.bodyRuns = s.bodyRuns + 1 := by
  intro n
  induction n with
  | zero =>
    intro a s h1 h2 h3 h4
    exact absurd h3 (by omega)
  | succ m ih =>
    intro a s h1 h2 h3 h4
    rw [List.range'_succ]
    by_cases hak : a = k
    · subst hak
      cases br with
      | none =>
        simp [qConnEnterLoop, hks, qConnExitLoop_bodyRuns, stepBody, stepConnectOk,
          stepDisconnect]
      | some bm =>
        by_cases hlast : a = retries - 1
        · subst hlast
          simp [qConnEnterLoop, hks, stepBody, stepConnectOk, stepDisconnect]
        · simp [qConnEnterLoop, hks, hlast, qConnRecoverLoop_bodyRuns, stepBody,
            stepConnectOk, stepDisconnect, stepSleep]
    · have hlt : a < k := by omega
      obtain ⟨m0, hm0⟩ : ∃ m0, cr a = some m0 := by
        cases h : cr a with
        | none => exact absurd h (h4 a (Nat.le_refl a) hlt)
        | some m0 => exact ⟨m0, rfl⟩
      have hna : a ≠ retries - 1 := by omega
      have hstep : qConnEnterLoop retries cr br (a :: List.range' (a + 1) m) s
          = qConnEnterLoop retries cr br (List.range' (a + 1) m)
              (stepDisconnect (stepSleep (stepConnectFail s))) := by
        simp [qConnEnterLoop, hm0, hna]
      rw [hstep,
        ih (a + 1) (stepDisconnect (stepSleep (stepConnectFail s))) (by omega) (by omega) h3
          (fun j hj1 hj2 => h4 j (by omega) hj2)]
      simp [stepDisconnect, stepSleep, stepConnectFail]

/-- Claim C3: for every invocation of the index.py / query.py connection
manager in which some connection attempt succeeds (at the first successful
attempt `k`, all earlier attempts failing), the caller's scoped body is
executed exactly once — the `contextlib` protocol runs the body on the
first `yield`; later loop iterations can only yield again into a
`RuntimeError`, never re-enter the body. -/
theorem claim_C3_body_yield_once (retries : Nat) (cr : Nat → Option String) (br : Option String)
    (k : Nat) (hk : k < retries) (hks : cr k = none) (hfirst : ∀ j, j < k → cr j ≠ none) :
    (milvus_connection_query retries cr br).state.bodyRuns = 1 := by
  unfold milvus_connection_query
  rw [List.range_eq_range']
  rw [qConnEnterLoop_bodyRuns retries cr br k hks retries 0 connInit (by omega) (by omega) hk
    (fun j _ hj => hfirst j hj)]
  rfl

/-- Witness for C3: first attempt refused, second succeeds. -/
theorem claim_C3_witness :
    1 < 3 ∧
    (milvus_connection_query 3 (fun n => if n = 0 then some "refused" else none)
        none).state.bodyRuns = 1 :=
  ⟨by decide,
    claim_C3_body_yield_once 3 (fun n => if n = 0 then some "refused" else none) none 1
      (by decide) rfl (by decide)⟩

/-! ### Connector: exhausted retries (C4) -/

lemma dbConnEnterLoop_allFail (retries : Nat) (cr : Nat → Option String) (br : Option String)
    (msgs : Nat → String) :
    ∀ (n a : Nat) (s : ConnState), a + n = retries → 0 < n →
      (∀ j, a ≤ j → j < retries → cr j = some (msgs j)) →
      dbConnEnterLoop retries cr br (List.range' a n) s
        = ⟨⟨s.connects + n, s.bodyRuns, s.sleeps + (n - 1), s.disconnects + 1, false⟩,
           .connectFailure retries (msgs (retries - 1))⟩ := by
  intro n
  induction n with
  | zero =>
    intro a s h1 h2 h3
    exact absurd h2 (by omega)
  | succ m ih =>
    intro a s h1 h2 h3
    rw [List.range'_succ]
    have hcra : cr a = some (msgs a) := h3 a (Nat.le_refl a) (by omega)
    cases m with
    | zero =>
      have ha : a = retries - 1 := by omega
      subst ha
      simp [dbConnEnterLoop, hcra, stepConnectFail, stepDisconnect]
    | succ m' =>
      have hna : a ≠ retries - 1 := by omega
      have hstep : dbConnEnterLoop retries cr br (a :: List.range' (a + 1) (m' + 1)) s
          = dbConnEnterLoop retries cr br (List.range' (a + 1) (m' + 1))
              (stepSleep (stepConnectFail s)) := by
        simp [dbConnEnterLoop, hcra, hna]
      rw [hstep,
        ih (a + 1) (stepSleep (stepConnectFail s)) (by omega) (by omega)
          (fun j hj1 hj2 => h3 j (by omega) hj2)]
      simp only [stepSleep, stepConnectFail, ConnResult.mk.injEq, ConnState.mk.injEq]
      refine ⟨⟨?_, ?_, ?_, ?_, ?_⟩, ?_⟩ <;> first | trivial | omega

/-- Supporting theorem for C4, on the model of the intended
`milvus_connection` of db_insertion.py (the committed code is a
SyntaxError — `finally` attached to the `for` — so this reads it as
`try: <retry loop> finally: disconnect`): against a store that rejects
every attempt, the connector makes exactly `retries` connect calls, sleeps
`retries - 1` times (between consecutive attempts), never runs the body,
fails with the connect-failure message carrying the attempt count and the
last underlying cause, and exits with the handle closed after a swallowed
disconnect. -/
theorem claim_C4_connector_model (retries : Nat) (cr : Nat → Option String) (br : Option String)
    (msgs : Nat → String) (hr : 0 < retries) (hfail : ∀ j, j < retries → cr j = some (msgs j)) :
    milvus_connection_db retries cr br
      = ⟨⟨retries, 0, retries - 1, 1, false⟩, .connectFailure retries (msgs (retries - 1))⟩ := by
  unfold milvus_connection_db
  rw [List.range_eq_range']
  rw [dbConnEnterLoop_allFail retries cr br msgs retries 0 connInit (by omega) hr
    (fun j _ hj => hfail j hj)]
  simp only [connInit, ConnResult.mk.injEq, ConnState.mk.injEq]
  refine ⟨⟨?_, ?_, ?_, ?_, ?_⟩, ?_⟩ <;> first | trivial | omega

/-- Witness for C4: three attempts, all refused. -/
theorem claim_C4_witness :
    0 < 3 ∧
    milvus_connection_db 3 (fun n => some ("refused " ++ toString n)) none
      = ⟨⟨3, 0, 2, 1, false⟩, .connectFailure 3 ("refused " ++ toString 2)⟩ :=
  ⟨by decide,
    claim_C4_connector_model 3 (fun n => some ("refused " ++ toString n)) none
      (fun n => "refused " ++ toString n) (by decide) (fun _ _ => rfl)⟩

/-! ### Connector: body exceptions are caught but the body is never re-run (C10) -/

lemma dbConnRecoverLoop_spec (retries : Nat) (cr : Nat → Option String) :
    ∀ (n a : Nat) (s : ConnState), a + n = retries → 0 < n →
      (dbConnRecoverLoop retries cr (List.range' a n) s).state.bodyRuns = s.bodyRuns ∧
      ((∃ c, (dbConnRecoverLoop retries cr (List.range' a n) s).outcome
          = ConnOutcome.connectFailure retries c) ∨
        (dbConnRecoverLoop retries cr (List.range' a n) s).outcome
          = ConnOutcome.didntStopAfterThrow) := by
  intro n
  induction n with
  | zero =>
    intro a s h1 h2
    exact absurd h2 (by omega)
  | succ m ih =>
    intro a s h1 h2
    rw [List.range'_succ]
    cases hcra : cr a with
    | none =>
      constructor
      · simp [dbConnRecoverLoop, hcra, stepConnectOk]
      · right
        simp [dbConnRecoverLoop, hcra]
    | some m0 =>
      by_cases ha : a = retries - 1
      · subst ha
        constructor
        · simp [dbConnRecoverLoop, hcra, stepConnectFail, stepDisconnect]
        · left
          exact ⟨m0, by simp [dbConnRecoverLoop, hcra]⟩
      · have hstep : dbConnRecoverLoop retries cr (a :: List.range' (a + 1) m) s
            = dbConnRecoverLoop retries cr (List.range' (a + 1) m)
                (stepSleep (stepConnectFail s)) := by
          simp [dbConnRecoverLoop, hcra, ha]
        have hrec := ih (a + 1) (stepSleep (stepConnectFail s)) (by omega) (by omega)
        rw [hstep]
        refine ⟨?_, hrec.2⟩
        rw [hrec.1]
        simp [stepSleep, stepConnectFail]

lemma dbConnEnterLoop_throw_spec (retries : Nat) (cr : Nat → Option String) (bm : String)
    (k : Nat) (hks : cr k = none) :
    ∀ (n a : Nat) (s : ConnState), a + n = retries → a ≤ k → k < retries →
      (∀ j, a ≤ j → j < k → cr j ≠ none) →
      (dbConnEnterLoop retries cr (some bm) (List.range' a n) s).state.bodyRuns
          = s.bodyRuns + 1 ∧
      ((∃ c, (dbConnEnterLoop retries cr (some bm) (List.range' a n) s).outcome
          = ConnOutcome.connectFailure retries c) ∨
        (dbConnEnterLoop retries cr (some bm) (List.range' a n) s).outcome
          = ConnOutcome.didntStopAfterThrow) := by
  intro n
  induction n with
  | zero =>
    intro a s h1 h2 h3 h4
    exact absurd h3 (by omega)
  | succ m ih =>
    intro a s h1 h2 h3 h4
    rw [List.range'_succ]
    by_cases hak : a = k
    · subst hak
      by_cases hlast : a = retries - 1
      · subst hlast
        constructor
        · simp [dbConnEnterLoop, hks, stepBody, stepConnectOk, stepDisconnect]
        · left
          exact ⟨bm, by simp [dbConnEnterLoop, hks]⟩
      · have hstep : dbConnEnterLoop retries cr (some bm) (a :: List.range' (a + 1) m) s
            = dbConnRecoverLoop retries cr (List.range' (a + 1) m)
                (stepSleep (stepBody (stepConnectOk s))) := by
          simp [dbConnEnterLoop, hks, hlast]
        have hrec := dbConnRecoverLoop_spec retries cr m (a + 1)
          (stepSleep (stepBody (stepConnectOk s))) (by omega) (by omega)
        rw [hstep]
        refine ⟨?_, hrec.2⟩
        rw [hrec.1]
        simp [stepSleep, stepBody, stepConnectOk]
    · have hlt : a < k := by omega
      obtain ⟨m0, hm0⟩ : ∃ m0, cr a = some m0 := by
        cases h : cr a with
        | none => exact absurd h (h4 a (Nat.le_refl a) hlt)
        | some m0 => exact ⟨m0, rfl⟩
      have hna : a ≠ retries - 1 := by omega
      have hstep : dbConnEnterLoop retries cr (some bm) (a :: List.range' (a + 1) m) s
          = dbConnEnterLoop retries cr (some bm) (List.range' (a + 1) m)
              (stepSleep (stepConnectFail s)) := by
        simp [dbConnEnterLoop, hm0, hna]
      have hrec := ih (a + 1) (stepSleep (stepConnectFail s)) (by omega) (by omega) h3
        (fun j hj1 hj2 => h4 j (by omega) hj2)
      rw [hstep]
      refine ⟨?_, hrec.2⟩
      rw [hrec.1]
      simp [stepSleep, stepConnectFail]

/-- Counterexample for C10 as stated: connecting always succeeds, body
raises "boom" with two attempts remaining — yet the body is executed only
once (never re-executed after the reconnect), and the `with` statement
fails with the protocol's `RuntimeError` (`didntStopAfterThrow`), not by
re-running the body nor by propagating "boom". -/
theorem claim_C10_counterexample :
    (milvus_connection_db 3 (fun _ => none) (some "boom")).state.bodyRuns = 1 ∧
    (milvus_connection_db 3 (fun _ => none) (some "boom")).outcome
      = ConnOutcome.didntStopAfterThrow ∧
    (milvus_connection_db 3 (fun _ => none) (some "boom")).outcome
      ≠ ConnOutcome.bodyError "boom" := by
  decide

/-- Claim C10 as amended: when the body raises, the generator's `except`
does catch the exception (and on non-last attempts sleeps and reconnects),
but the body is never re-executed — it runs exactly once; the `with`
statement then fails either with the generic
"Failed to connect after N attempts" exception (on the last attempt the
body's message is embedded in it; otherwise a later connect failure's) or
with `RuntimeError("generator didn't stop after throw()")` after a
successful reconnect.  In particular the body's exception never propagates
in its original form. -/
theorem claim_C10_amended (retries : Nat) (cr : Nat → Option String) (bm : String) (k : Nat)
    (hk : k < retries) (hks : cr k = none) (hfirst : ∀ j, j < k → cr j ≠ none) :
    (milvus_connection_db retries cr (some bm)).state.bodyRuns = 1 ∧
    ((∃ c, (milvus_connection_db retries cr (some bm)).outcome
        = ConnOutcome.connectFailure retries c) ∨
      (milvus_connection_db retries cr (some bm)).outcome
        = ConnOutcome.didntStopAfterThrow) ∧
    (∀ m, (milvus_connection_db retries cr (some bm)).outcome ≠ ConnOutcome.bodyError m) := by
  unfold milvus_connection_db
  rw [List.range_eq_range']
  have h := dbConnEnterLoop_throw_spec retries cr bm k hks retries 0 connInit (by omega)
    (by omega) hk (fun j _ hj => hfirst j hj)
  refine ⟨by rw [h.1]; rfl, h.2, ?_⟩
  intro m hcontra
  rcases h.2 with ⟨c, hc⟩ | hc <;> rw [hcontra] at hc <;> exact ConnOutcome.noConfusion hc

/-- Witness for the amended C10: first attempt succeeds, body raises. -/
theorem claim_C10_witness :
    0 < 3 ∧
    (milvus_connection_db 3 (fun _ => none) (some "boom")).state.bodyRuns = 1 :=
  ⟨by decide,
    (claim_C10_amended 3 (fun _ => none) "boom" 0 (by decide) rfl (by decide)).1⟩
